import Mathlib

/-!
# Process and window sensing layer

A shallow embedding of `proc_sensing.c` (`CaptureProcessSnapshot`,
`GetProcessInfoByPID`) and `screentime_windows.c` (`GetActiveWindowInfo`).

* `char` / `wchar_t` buffers are lists of code units (`Nat`), a fixed-capacity
  field being a list of that length; a C string is the run of units before the
  first `0`.
* `DWORD` / `uint32_t` identifiers are `Nat` (both are 32 bits wide, no
  conversion changes a value); the 64-bit start time is reduced `% 2^64`.
* The operating system is an explicit environment: what each WinAPI call
  answers is an input of the embedded function.
* Open OS handles are explicit state (`Handles`), threaded through every call.
-/

namespace ProcSensing

/-! ## C library routines used by the source -/

/-- The C string stored at the start of `mem`: the units before the first `0`
(the end of the modelled memory counts as a terminator). -/
def cstr : List Nat → List Nat
  | [] => []
  | c :: cs => if c = 0 then [] else c :: cstr cs

/-- Writing `bytes` to a buffer from offset 0 on. A write longer than the buffer
makes the result longer than the buffer: an overflow stays visible. -/
def store (buf bytes : List Nat) : List Nat :=
  bytes ++ buf.drop bytes.length

/-- The call `memset(buf, c, n)`. -/
def memset (buf : List Nat) (c n : Nat) : List Nat :=
  store buf (List.replicate n c)

/-- The `n` units `strncpy(dest, src, n)` stores: units of `src` up to its
terminator, then `0` padding; never more than `n`, no terminator added. -/
def strncpyBytes : List Nat → Nat → List Nat
  | _, 0 => []
  | [], n + 1 => List.replicate (n + 1) 0
  | c :: cs, n + 1 =>
    if c = 0 then List.replicate (n + 1) 0 else c :: strncpyBytes cs n

/-- The call `strncpy(dest, src, n)`. -/
def strncpy (dest src : List Nat) (n : Nat) : List Nat :=
  store dest (strncpyBytes src n)

/-- The scan of `strrchr`: walk the string from index `i`, remembering in `last`
the latest index holding `c`, and stop at the terminator. -/
def strrchrFrom (c : Nat) : List Nat → Nat → Option Nat → Option Nat
  | [], _, last => last
  | b :: bs, i, last =>
    let last' := if b = c then some i else last
    if b = 0 then last' else strrchrFrom c bs (i + 1) last'

/-- The call `strrchr(s, c)`: index of the last occurrence of `c` in the C string
at `s`, or `none` for a NULL result. -/
def strrchr (s : List Nat) (c : Nat) : Option Nat :=
  strrchrFrom c s 0 none

/-! ## Records (`proc_sensing.h`, `screentime.h`) -/

/-- The struct `ProcGuard_ProcessInfo`. -/
structure ProcGuard_ProcessInfo where
  pid : Nat
  parent_pid : Nat
  start_time_nano : Nat
  name : List Nat
  exe_path : List Nat
  deriving DecidableEq, Repr

/-- The struct `ProcGuard_ProcessList`; `processes = none` is the NULL pointer. -/
structure ProcGuard_ProcessList where
  processes : Option (List ProcGuard_ProcessInfo)
  count : Nat
  deriving DecidableEq, Repr

/-- The struct `ActiveWindowInfo`. -/
structure ActiveWindowInfo where
  pid : Nat
  title : List Nat
  deriving DecidableEq, Repr

/-- A zero-filled `ProcGuard_ProcessInfo`: one `calloc` slot, or `= { 0 }`. -/
def zeroInfo : ProcGuard_ProcessInfo :=
  { pid := 0, parent_pid := 0, start_time_nano := 0,
    name := List.replicate 260 0, exe_path := List.replicate 260 0 }

/-! ## Operating-system environment -/

/-- The WinAPI struct `PROCESSENTRY32`, with the fields the source reads.
`szExeFile` is the memory the name is copied from. -/
structure PROCESSENTRY32 where
  th32ProcessID : Nat
  th32ParentProcessID : Nat
  szExeFile : List Nat
  deriving DecidableEq, Repr

/-- The WinAPI struct `FILETIME`. -/
structure FILETIME where
  dwLowDateTime : Nat
  dwHighDateTime : Nat
  deriving DecidableEq, Repr

/-- What the OS answers through an opened process handle: `times` is the
creation time `GetProcessTimes` stores (`none`: the call fails), `imagePath` the
path `QueryFullProcessImageNameA` has for the process (`none`: the call fails). -/
structure ProcessView where
  times : Option FILETIME
  imagePath : Option (List Nat)
  deriving DecidableEq, Repr

/-- The call `GetProcessTimes(hProc, &ftCreate, ...)`: the creation time on
success. -/
def GetProcessTimes (view : ProcessView) : Option FILETIME :=
  view.times

/-- The call `QueryFullProcessImageNameA(hProc, 0, buf, &pathSize)`: on success
the path and its terminator are stored in `buf`; the call fails, leaving `buf`
as it was, when there is no path or it does not fit in `pathSize` units with its
terminator. -/
def QueryFullProcessImageNameA (view : ProcessView) (buf : List Nat) (pathSize : Nat) :
    Bool × List Nat :=
  match view.imagePath with
  | none => (false, buf)
  | some p => if p.length < pathSize then (true, store buf (p ++ [0])) else (false, buf)

/-- An acquisition or release of an OS handle. -/
inductive HandleEvent where
  | opened (h : Nat)
  | closed (h : Nat)
  deriving DecidableEq, Repr

/-- The open OS handles of the calling process: `live` are the handles open now,
`next` the identifier of the next acquisition, `trace` every acquisition and
release so far, oldest first. -/
structure Handles where
  live : List Nat
  next : Nat
  trace : List HandleEvent
  deriving DecidableEq, Repr

/-- A successful handle-returning call (`CreateToolhelp32Snapshot`,
`OpenProcess`): the new handle and the state holding it. -/
def Handles.acquire (hs : Handles) : Nat × Handles :=
  (hs.next,
    { live := hs.next :: hs.live, next := hs.next + 1,
      trace := hs.trace ++ [HandleEvent.opened hs.next] })

/-- The call `CloseHandle(h)`. -/
def CloseHandle (h : Nat) (hs : Handles) : Handles :=
  { hs with live := hs.live.erase h, trace := hs.trace ++ [HandleEvent.closed h] }

/-- The environment of one `CaptureProcessSnapshot` call.
* `snapshotOk`: `CreateToolhelp32Snapshot` returns a valid handle;
* `countWalk`: the entries the first walk (`Process32First`, then
  `Process32Next` until it fails) delivers;
* `callocOk`: `calloc` returns storage;
* `fillWalk`: the entries the second walk can deliver, each with the outcome of
  the `OpenProcess` call made for it (`none`: the handle cannot be opened). -/
structure SnapshotEnv where
  snapshotOk : Bool
  countWalk : List PROCESSENTRY32
  callocOk : Bool
  fillWalk : List (PROCESSENTRY32 × Option ProcessView)

/-! ## `proc_sensing.c` -/

/-- The expression `rawTime * 100` of the source, `rawTime` being
`(((unsigned long long)ftCreate.dwHighDateTime) << 32) | ftCreate.dwLowDateTime`,
in 64-bit unsigned arithmetic. -/
def startTimeNano (ftCreate : FILETIME) : Nat :=
  let rawTime := (((ftCreate.dwHighDateTime % 2 ^ 64) <<< 32) % 2 ^ 64) ||| ftCreate.dwLowDateTime
  (rawTime * 100) % 2 ^ 64

/-- The loop `do { count++; } while (Process32Next(snapshot, &entry));`, given
the entries `Process32Next` still has to deliver. The `int` counter is exact: a
snapshot holds fewer than `2^31` entries. -/
def countLoop : List PROCESSENTRY32 → Nat → Nat
  | [], count => count + 1
  | _ :: rest, count => countLoop rest (count + 1)

/-- The state of the fill loop: the record array, the index `i`, the slots
written through `&list.processes[i]` so far (oldest first), the open handles. -/
structure FillState where
  processes : List ProcGuard_ProcessInfo
  i : Nat
  stores : List Nat
  handles : Handles
  deriving DecidableEq, Repr

/-- One iteration body of the fill loop (source lines 39 to 59) for the current
`entry`; `proc` is the outcome of `OpenProcess` for it. -/
def fillBody (entry : PROCESSENTRY32) (proc : Option ProcessView) (st : FillState) :
    FillState :=
  let info := st.processes.getD st.i zeroInfo
  let info := { info with pid := entry.th32ProcessID }
  let info := { info with parent_pid := entry.th32ParentProcessID }
  let info := { info with name := memset info.name 0 260 }
  let info := { info with name := strncpy info.name entry.szExeFile (260 - 1) }
  match proc with
  | none =>
    { processes := st.processes.set st.i info, i := st.i + 1,
      stores := st.stores ++ [st.i], handles := st.handles }
  | some view =>
    let (hProc, hs) := st.handles.acquire
    let info :=
      match GetProcessTimes view with
      | some ftCreate => { info with start_time_nano := startTimeNano ftCreate }
      | none => info
    let info := { info with exe_path := (QueryFullProcessImageNameA view info.exe_path 260).2 }
    let hs := CloseHandle hProc hs
    { processes := st.processes.set st.i info, i := st.i + 1,
      stores := st.stores ++ [st.i], handles := hs }

/-- The loop `do { ... i++; } while (Process32Next(snapshot, &entry) && i < count);`
entered with the current `entry`; `rest` are the entries `Process32Next` still
has to deliver. -/
def fillLoop (count : Nat) :
    PROCESSENTRY32 → Option ProcessView → List (PROCESSENTRY32 × Option ProcessView) →
      FillState → FillState
  | entry, proc, [], st => fillBody entry proc st
  | entry, proc, (entry', proc') :: rest, st =>
    let st' := fillBody entry proc st
    if st'.i < count then fillLoop count entry' proc' rest st' else st'

/-- What one `CaptureProcessSnapshot` call leaves behind: the returned list, the
array slots it wrote (in order), and the open handles. -/
structure CaptureResult where
  list : ProcGuard_ProcessList
  stores : List Nat
  handles : Handles
  deriving DecidableEq, Repr

/-- The function `CaptureProcessSnapshot` of `proc_sensing.c`. -/
def CaptureProcessSnapshot (env : SnapshotEnv) (hs : Handles) : CaptureResult :=
  let list : ProcGuard_ProcessList := { processes := none, count := 0 }
  if env.snapshotOk = false then ⟨list, [], hs⟩
  else
    let (snapshot, hs) := hs.acquire
    match env.countWalk with
    | [] => ⟨list, [], CloseHandle snapshot hs⟩
    | _ :: rest =>
      let count := countLoop rest 0
      if env.callocOk = false then ⟨list, [], CloseHandle snapshot hs⟩
      else
        let processes := List.replicate count zeroInfo
        match env.fillWalk with
        | [] => ⟨{ processes := some processes, count := 0 }, [], CloseHandle snapshot hs⟩
        | (entry, proc) :: rest2 =>
          let st := fillLoop count entry proc rest2 ⟨processes, 0, [], hs⟩
          ⟨{ processes := some st.processes, count := st.i }, st.stores,
            CloseHandle snapshot st.handles⟩

/-- The function `GetProcessInfoByPID` of `proc_sensing.c`; `proc` is the outcome
of `OpenProcess(PROCESS_QUERY_LIMITED_INFORMATION, FALSE, pid)` (`none`: NULL). -/
def GetProcessInfoByPID (proc : Option ProcessView) (pid : Nat) (hs : Handles) :
    ProcGuard_ProcessInfo × Handles :=
  let info := zeroInfo
  let info := { info with pid := pid }
  match proc with
  | none => (info, hs)
  | some view =>
    let (hProc, hs) := hs.acquire
    let info :=
      match GetProcessTimes view with
      | some ftCreate => { info with start_time_nano := startTimeNano ftCreate }
      | none => info
    let (ok, buf) := QueryFullProcessImageNameA view info.exe_path 260
    let info := { info with exe_path := buf }
    let info :=
      if ok then
        match strrchr info.exe_path 92 with
        | some lastSlash =>
          { info with name := strncpy info.name (info.exe_path.drop (lastSlash + 1)) (260 - 1) }
        | none => { info with name := strncpy info.name info.exe_path (260 - 1) }
      else info
    (info, CloseHandle hProc hs)

/-! ## `screentime_windows.c` -/

/-- The foreground window as the OS reports it: `owner` is the value
`GetWindowThreadProcessId` stores through its out-parameter (`none`: it stores
nothing), `text` the caption. -/
structure Window where
  owner : Option Nat
  text : List Nat
  deriving DecidableEq, Repr

/-- The call `GetWindowTextW(hwnd, buf, nMaxCount)`: the caption, cut to
`nMaxCount - 1` units, and a terminator. -/
def GetWindowTextW (w : Window) (buf : List Nat) (nMaxCount : Nat) : List Nat :=
  store buf (w.text.take (nMaxCount - 1) ++ [0])

/-- The function `GetActiveWindowInfo` of `screentime_windows.c`: the return
value and the record behind `info` afterwards (`none`: `info` is NULL).
`foreground` is the result of `GetForegroundWindow()` (`none`: NULL). -/
def GetActiveWindowInfo (foreground : Option Window) (info : Option ActiveWindowInfo) :
    Int × Option ActiveWindowInfo :=
  match info with
  | none => (-1, none)
  | some info =>
    let info := { info with pid := 0 }
    let info := { info with title := info.title.set 0 0 }
    match foreground with
    | none => (-1, some info)
    | some hwnd =>
      let pid := 0
      let pid := match hwnd.owner with
        | some p => p
        | none => pid
      if pid = 0 then (-1, some info)
      else
        let info := { info with pid := pid }
        let info := { info with title := GetWindowTextW hwnd info.title 256 }
        (0, some info)

/-! ## Concrete inputs -/

/-- No handle open, no history. -/
def noHandles : Handles := ⟨[], 0, []⟩

/-- The entry Windows reports for the idle process: process id 0, name
`[System Process]`. -/
def idleEntry : PROCESSENTRY32 :=
  ⟨0, 0, [91, 83, 121, 115, 116, 101, 109, 32, 80, 114, 111, 99, 101, 115, 115, 93, 0]⟩

/-- An entry for process 4132, child of 820, named `a.exe`. -/
def sampleEntry : PROCESSENTRY32 := ⟨4132, 820, [97, 46, 101, 120, 101, 0]⟩

/-- An entry whose name memory holds 300 non-zero units and no terminator. -/
def longEntry : PROCESSENTRY32 := ⟨4136, 820, List.replicate 300 65⟩

/-- The path `C:\Apps\tool.exe`. -/
def toolPath : List Nat :=
  [67, 58, 92, 65, 112, 112, 115, 92, 116, 111, 111, 108, 46, 101, 120, 101]

/-- The name `tool.exe`. -/
def toolName : List Nat := [116, 111, 111, 108, 46, 101, 120, 101]

/-- The path `C:\`, which ends in a backslash. -/
def rootPath : List Nat := [67, 58, 92]

/-- A process whose times and path queries both succeed. -/
def sampleView : ProcessView := ⟨some ⟨5, 1⟩, some toolPath⟩

/-- A table holding the idle process only; its handle cannot be opened. -/
def idleEnv : SnapshotEnv := ⟨true, [idleEntry], true, [(idleEntry, none)]⟩

/-- A table that grows between the walks: two entries counted, three readable. -/
def grownEnv : SnapshotEnv :=
  ⟨true, [sampleEntry, longEntry], true,
    [(sampleEntry, none), (longEntry, some sampleView), (sampleEntry, none)]⟩

/-! ## Notions used to state the results -/

/-- The record the fill-loop body leaves in a zero-filled (`calloc`) slot for
`entry`, the `OpenProcess` outcome being `proc`. -/
def slotOf (entry : PROCESSENTRY32) (proc : Option ProcessView) : ProcGuard_ProcessInfo :=
  ((fillBody entry proc ⟨[zeroInfo], 0, [], ⟨[], 0, []⟩⟩).processes).getD 0 zeroInfo

/-- A run of handle events in which every handle that is opened is opened once
and closed once, and every handle that is closed was opened earlier in the run. -/
def Scoped (evs : List HandleEvent) : Prop :=
  (∀ h, HandleEvent.opened h ∈ evs →
      evs.count (HandleEvent.opened h) = 1 ∧ evs.count (HandleEvent.closed h) = 1)
    ∧ (∀ h, HandleEvent.closed h ∈ evs →
      ∃ a b c, evs = a ++ HandleEvent.opened h :: (b ++ HandleEvent.closed h :: c))

/-- A scoped run whose handles are the acquisitions numbered `lo` to `hi - 1`. -/
def ScopedIn (lo hi : Nat) (evs : List HandleEvent) : Prop :=
  lo ≤ hi ∧ Scoped evs ∧ ∀ h, HandleEvent.opened h ∈ evs → lo ≤ h ∧ h < hi

/-- The handle state `hs2` is `hs1` after a scoped run: the same handles are
open, and the run is appended to the trace. -/
def Released (hs1 hs2 : Handles) : Prop :=
  hs2.live = hs1.live ∧ ∃ evs, hs2.trace = hs1.trace ++ evs ∧ ScopedIn hs1.next hs2.next evs

/-! ## Facts about the C library routines -/

theorem cstr_no_zero (s : List Nat) : (0 : Nat) ∉ cstr s := by
  induction s with
  | nil => simp [cstr]
  | cons c cs ih =>
    by_cases hc : c = 0
    · simp [cstr, hc]
    · simp only [cstr, hc, if_false, List.mem_cons, not_or]
      exact ⟨fun h => hc h.symm, ih⟩

theorem cstr_append_zero (s t : List Nat) (hs : (0 : Nat) ∉ s) : cstr (s ++ 0 :: t) = s := by
  induction s with
  | nil => simp [cstr]
  | cons c cs ih =>
    simp only [List.mem_cons, not_or] at hs
    have hc : c ≠ 0 := fun h => hs.1 h.symm
    simp [cstr, hc, ih hs.2]

theorem cstr_append_replicate (s : List Nat) (k : Nat) (hs : (0 : Nat) ∉ s) :
    cstr (s ++ List.replicate k 0) = s := by
  cases k with
  | zero =>
    simp only [List.replicate_zero, List.append_nil]
    induction s with
    | nil => simp [cstr]
    | cons c cs ih =>
      simp only [List.mem_cons, not_or] at hs
      have hc : c ≠ 0 := fun h => hs.1 h.symm
      simp [cstr, hc, ih hs.2]
  | succ k => exact cstr_append_zero s _ hs

theorem cstr_of_no_zero (s : List Nat) (hs : (0 : Nat) ∉ s) : cstr s = s := by
  simpa using cstr_append_replicate s 0 hs

theorem strncpyBytes_eq (src : List Nat) (n : Nat) :
    strncpyBytes src n
      = (cstr src).take n ++ List.replicate (n - (cstr src).length) 0 := by
  induction src generalizing n with
  | nil => cases n <;> simp [strncpyBytes, cstr]
  | cons c cs ih =>
    cases n with
    | zero => simp [strncpyBytes]
    | succ n =>
      by_cases hc : c = 0
      · simp [strncpyBytes, cstr, hc]
      · simp [strncpyBytes, cstr, hc, ih n]

theorem strncpyBytes_length (src : List Nat) (n : Nat) : (strncpyBytes src n).length = n := by
  rw [strncpyBytes_eq]
  simp only [List.length_append, List.length_take, List.length_replicate]
  omega

/-- The two source lines `memset(info->name, 0, sizeof(info->name));
strncpy(info->name, src, sizeof(info->name) - 1);` on a 260-unit field. -/
theorem name_copy_eq (name src : List Nat) (hlen : name.length = 260) :
    strncpy (memset name 0 260) src (260 - 1)
      = (cstr src).take (min (cstr src).length 259)
          ++ List.replicate (260 - min (cstr src).length 259) 0 := by
  have hdrop : name.drop 260 = [] := by
    apply List.drop_eq_nil_of_le
    omega
  have hmem : memset name 0 260 = List.replicate 260 0 := by
    unfold memset store
    rw [List.length_replicate, hdrop, List.append_nil]
  have h259 : (List.replicate 260 (0 : Nat)).drop 259 = List.replicate 1 0 := by
    rw [List.drop_replicate]
  rw [hmem]
  unfold strncpy store
  rw [strncpyBytes_length, h259, strncpyBytes_eq, List.append_assoc, ← List.replicate_add]
  rcases Nat.lt_or_ge (cstr src).length 259 with h | h
  · rw [Nat.min_eq_left (Nat.le_of_lt h), List.take_of_length_le (Nat.le_of_lt h),
      List.take_of_length_le (Nat.le_refl _)]
    congr 2
    omega
  · rw [Nat.min_eq_right h]
    congr 2
    omega

/-- The same copy into a field that is already zero (`info = { 0 }`). -/
theorem strncpy_zero_eq (src : List Nat) :
    strncpy (List.replicate 260 0) src (260 - 1)
      = (cstr src).take (min (cstr src).length 259)
          ++ List.replicate (260 - min (cstr src).length 259) 0 := by
  have h := name_copy_eq (List.replicate 260 0) src (List.length_replicate _ _)
  have hmem : memset (List.replicate 260 0) 0 260 = List.replicate 260 0 := by
    unfold memset store
    rw [List.length_replicate, List.drop_replicate, Nat.sub_self, List.replicate_zero,
      List.append_nil]
  rwa [hmem] at h

theorem cstr_copied (src : List Nat) :
    cstr ((cstr src).take (min (cstr src).length 259)
        ++ List.replicate (260 - min (cstr src).length 259) 0)
      = (cstr src).take 259 := by
  have hz : (0 : Nat) ∉ (cstr src).take (min (cstr src).length 259) :=
    fun h => cstr_no_zero src (List.mem_of_mem_take h)
  rw [cstr_append_replicate _ _ hz]
  rcases Nat.lt_or_ge (cstr src).length 259 with h | h
  · rw [Nat.min_eq_left (Nat.le_of_lt h), List.take_of_length_le (Nat.le_refl _),
      List.take_of_length_le (Nat.le_of_lt h)]
  · rw [Nat.min_eq_right h]

theorem strrchrFrom_absent (c : Nat) (hc : c ≠ 0) (s t : List Nat) (i : Nat) (last : Option Nat)
    (hz : (0 : Nat) ∉ s) (hs : c ∉ s) :
    strrchrFrom c (s ++ 0 :: t) i last = last := by
  induction s generalizing i with
  | nil => simp [strrchrFrom, hc.symm]
  | cons b bs ih =>
    simp only [List.mem_cons, not_or] at hz hs
    have hb0 : b ≠ 0 := fun h => hz.1 h.symm
    have hbc : b ≠ c := fun h => hs.1 h.symm
    simp only [List.cons_append, strrchrFrom, hb0, hbc, if_false]
    exact ih (i + 1) hz.2 hs.2

theorem strrchrFrom_last (c : Nat) (hc : c ≠ 0) (front back t : List Nat) (i : Nat)
    (last : Option Nat) (hz : (0 : Nat) ∉ front ++ c :: back) (hback : c ∉ back) :
    strrchrFrom c ((front ++ c :: back) ++ 0 :: t) i last = some (i + front.length) := by
  induction front generalizing i last with
  | nil =>
    have hzb : (0 : Nat) ∉ back := fun h => hz (by simp [h])
    simp only [List.nil_append, List.cons_append, strrchrFrom, hc, if_true, if_false,
      List.length_nil, Nat.add_zero]
    exact strrchrFrom_absent c hc back t (i + 1) (some i) hzb hback
  | cons b bs ih =>
    have hb0 : b ≠ 0 := fun h => hz (by simp [h])
    have hz2 : (0 : Nat) ∉ bs ++ c :: back := fun h => hz (by simp at h ⊢; tauto)
    simp only [List.cons_append, strrchrFrom, hb0, if_false, List.length_cons]
    refine (ih (i + 1) _ hz2).trans ?_
    congr 1
    omega

/-! ## Facts about `GetProcessInfoByPID` -/

theorem cstr_replicate_zero (k : Nat) : cstr (List.replicate k 0) = [] := by
  cases k <;> simp [cstr, List.replicate_succ]

/-- The buffer `QueryFullProcessImageNameA` leaves in a zeroed 260-unit field. -/
theorem store_path_eq (p : List Nat) (hlen : p.length ≤ 259) :
    store (List.replicate 260 0) (p ++ [0]) = p ++ 0 :: List.replicate (259 - p.length) 0 := by
  unfold store
  rw [List.drop_replicate, List.length_append, List.length_singleton, List.append_assoc,
    List.singleton_append]
  congr 3
  omega

/-- The record `GetProcessInfoByPID` returns when the handle opens and the path
query delivers `p`. -/
theorem byPID_success (view : ProcessView) (pid : Nat) (hs : Handles) (p : List Nat)
    (hp : view.imagePath = some p) (hlen : p.length ≤ 259) :
    (GetProcessInfoByPID (some view) pid hs).1.exe_path
        = p ++ 0 :: List.replicate (259 - p.length) 0
      ∧ (GetProcessInfoByPID (some view) pid hs).1.name
        = strncpy (List.replicate 260 0)
            (match strrchr (p ++ 0 :: List.replicate (259 - p.length) 0) 92 with
              | some lastSlash => (p ++ 0 :: List.replicate (259 - p.length) 0).drop (lastSlash + 1)
              | none => p ++ 0 :: List.replicate (259 - p.length) 0)
            (260 - 1) := by
  have hlt : p.length < 260 := by omega
  have hq : QueryFullProcessImageNameA view zeroInfo.exe_path 260
      = (true, p ++ 0 :: List.replicate (259 - p.length) 0) := by
    unfold QueryFullProcessImageNameA
    rw [hp]
    simp only [hlt, if_true]
    rw [show zeroInfo.exe_path = List.replicate 260 0 from rfl, store_path_eq p hlen]
  have hx : ∀ t : Option FILETIME,
      (match t with
        | some ftCreate =>
          ({ ({ zeroInfo with pid := pid } : ProcGuard_ProcessInfo) with
            start_time_nano := startTimeNano ftCreate } : ProcGuard_ProcessInfo)
        | none => { zeroInfo with pid := pid }).exe_path = zeroInfo.exe_path
      ∧ (match t with
        | some ftCreate =>
          ({ ({ zeroInfo with pid := pid } : ProcGuard_ProcessInfo) with
            start_time_nano := startTimeNano ftCreate } : ProcGuard_ProcessInfo)
        | none => { zeroInfo with pid := pid }).name = List.replicate 260 0 := by
    intro t
    cases t <;> exact ⟨rfl, rfl⟩
  unfold GetProcessInfoByPID
  simp only [Handles.acquire, (hx (GetProcessTimes view)).1, (hx (GetProcessTimes view)).2, hq,
    if_true]
  cases hr : strrchr (p ++ 0 :: List.replicate (259 - p.length) 0) 92 <;> exact ⟨rfl, rfl⟩

/-- The name `GetProcessInfoByPID` derives from a path holding a backslash: what
follows the last one. -/
theorem byPID_name_after_last (view : ProcessView) (pid : Nat) (hs : Handles)
    (front back : List Nat) (hp : view.imagePath = some (front ++ 92 :: back))
    (hlen : (front ++ 92 :: back).length ≤ 259) (hz : (0 : Nat) ∉ front ++ 92 :: back)
    (hback : (92 : Nat) ∉ back) :
    cstr (GetProcessInfoByPID (some view) pid hs).1.name = back := by
  have h := (byPID_success view pid hs _ hp hlen).2
  have hr := strrchrFrom_last 92 (by decide) front back
    (List.replicate (259 - (front ++ 92 :: back).length) 0) 0 none hz hback
  have hr2 : strrchr ((front ++ 92 :: back)
      ++ 0 :: List.replicate (259 - (front ++ 92 :: back).length) 0) 92
      = some front.length := by
    unfold strrchr
    rw [hr, Nat.zero_add]
  rw [hr2] at h
  have hzb : (0 : Nat) ∉ back := fun hb => hz (by simp [hb])
  have hdrop : ((front ++ 92 :: back)
      ++ 0 :: List.replicate (259 - (front ++ 92 :: back).length) 0).drop (front.length + 1)
      = back ++ 0 :: List.replicate (259 - (front ++ 92 :: back).length) 0 := by
    rw [List.append_assoc, List.drop_append]
    rfl
  have hsrc : cstr (back ++ 0 :: List.replicate (259 - (front ++ 92 :: back).length) 0) = back :=
    cstr_append_zero back _ hzb
  have hbl : back.length ≤ 259 := by
    simp only [List.length_append, List.length_cons] at hlen
    omega
  simp only [hdrop] at h
  rw [h, strncpy_zero_eq, cstr_copied, hsrc, List.take_of_length_le hbl]

/-- The name `GetProcessInfoByPID` derives from a path without a backslash: the
whole path. -/
theorem byPID_name_whole (view : ProcessView) (pid : Nat) (hs : Handles) (p : List Nat)
    (hp : view.imagePath = some p) (hlen : p.length ≤ 259) (hz : (0 : Nat) ∉ p)
    (hno : (92 : Nat) ∉ p) :
    cstr (GetProcessInfoByPID (some view) pid hs).1.name = p := by
  have h := (byPID_success view pid hs _ hp hlen).2
  have hr : strrchr (p ++ 0 :: List.replicate (259 - p.length) 0) 92 = none :=
    strrchrFrom_absent 92 (by decide) p _ 0 none hz hno
  rw [hr] at h
  have hsrc : cstr (p ++ 0 :: List.replicate (259 - p.length) 0) = p :=
    cstr_append_zero p _ hz
  simp only at h
  rw [h, strncpy_zero_eq, cstr_copied, hsrc, List.take_of_length_le hlen]

/-- A list holding `c` splits at the last `c`. -/
theorem split_at_last (c : Nat) (p : List Nat) (h : c ∈ p) :
    ∃ front back, p = front ++ c :: back ∧ c ∉ back := by
  have hr : c ∈ p.reverse := List.mem_reverse.mpr h
  obtain ⟨as, bs, hab, hna⟩ := List.eq_append_cons_of_mem hr
  refine ⟨bs.reverse, as.reverse, ?_, fun hm => hna (List.mem_reverse.mp hm)⟩
  have := congrArg List.reverse hab
  simpa using this

/-! ## Facts about scoped handle use -/

theorem scopedIn_nil (lo hi : Nat) (h : lo ≤ hi) : ScopedIn lo hi [] :=
  ⟨h, ⟨fun _ hm => absurd hm (List.not_mem_nil _), fun _ hm => absurd hm (List.not_mem_nil _)⟩,
    fun _ hm => absurd hm (List.not_mem_nil _)⟩

theorem scopedIn_closed_mem {lo hi : Nat} {evs : List HandleEvent} (hsc : ScopedIn lo hi evs)
    {h : Nat} (hm : HandleEvent.closed h ∈ evs) : HandleEvent.opened h ∈ evs := by
  obtain ⟨a, b, c, habc⟩ := hsc.2.1.2 h hm
  rw [habc]
  simp

theorem scopedIn_append {a b c : Nat} {x y : List HandleEvent} (hx : ScopedIn a b x)
    (hy : ScopedIn b c y) : ScopedIn a c (x ++ y) := by
  have hab := hx.1
  have hbc := hy.1
  have hxy : ∀ h, HandleEvent.opened h ∈ x → HandleEvent.opened h ∉ y := by
    intro h h1 h2
    have := (hx.2.2 h h1).2
    have := (hy.2.2 h h2).1
    omega
  refine ⟨by omega, ⟨?_, ?_⟩, ?_⟩
  · intro h hm
    rcases List.mem_append.mp hm with h1 | h2
    · have hno := hxy h h1
      have hnc : HandleEvent.closed h ∉ y := fun hc => hno (scopedIn_closed_mem hy hc)
      rw [List.count_append, List.count_append, List.count_eq_zero_of_not_mem hno,
        List.count_eq_zero_of_not_mem hnc]
      exact hx.2.1.1 h h1
    · have hno : HandleEvent.opened h ∉ x := fun h1 => hxy h h1 h2
      have hnc : HandleEvent.closed h ∉ x := fun hc => hno (scopedIn_closed_mem hx hc)
      rw [List.count_append, List.count_append, List.count_eq_zero_of_not_mem hno,
        List.count_eq_zero_of_not_mem hnc, Nat.zero_add, Nat.zero_add]
      exact hy.2.1.1 h h2
  · intro h hm
    rcases List.mem_append.mp hm with h1 | h2
    · obtain ⟨u, v, w, huvw⟩ := hx.2.1.2 h h1
      exact ⟨u, v, w ++ y, by rw [huvw]; simp⟩
    · obtain ⟨u, v, w, huvw⟩ := hy.2.1.2 h h2
      exact ⟨x ++ u, v, w, by rw [huvw]; simp⟩
  · intro h hm
    rcases List.mem_append.mp hm with h1 | h2
    · have := hx.2.2 h h1
      omega
    · have := hy.2.2 h h2
      omega

theorem scopedIn_wrap {n hi : Nat} {x : List HandleEvent} (hx : ScopedIn (n + 1) hi x) :
    ScopedIn n hi (HandleEvent.opened n :: (x ++ [HandleEvent.closed n])) := by
  have hlo := hx.1
  have hno : HandleEvent.opened n ∉ x := by
    intro hm
    have := (hx.2.2 n hm).1
    omega
  have hnc : HandleEvent.closed n ∉ x := fun hc => hno (scopedIn_closed_mem hx hc)
  refine ⟨by omega, ⟨?_, ?_⟩, ?_⟩
  · intro h hm
    by_cases hn : h = n
    · subst hn
      simp [List.count_cons, List.count_append, List.count_eq_zero_of_not_mem hno,
        List.count_eq_zero_of_not_mem hnc]
    · have hm2 : HandleEvent.opened h ∈ x := by
        simp only [List.mem_cons, List.mem_append, HandleEvent.opened.injEq, List.mem_singleton,
          reduceCtorEq, or_false, List.not_mem_nil] at hm
        rcases hm with hm | hm
        · exact absurd hm hn
        · exact hm
      have := hx.2.1.1 h hm2
      have hne : n ≠ h := fun e => hn e.symm
      simp [List.count_cons, List.count_append, hne, this.1, this.2]
  · intro h hm
    by_cases hn : h = n
    · subst hn
      exact ⟨[], x, [], by simp⟩
    · have hm2 : HandleEvent.closed h ∈ x := by
        simp only [List.mem_cons, List.mem_append, HandleEvent.closed.injEq, List.mem_singleton,
          reduceCtorEq, false_or, List.not_mem_nil, or_false] at hm
        rcases hm with hm | hm
        · exact hm
        · exact absurd hm hn
      obtain ⟨u, v, w, huvw⟩ := hx.2.1.2 h hm2
      exact ⟨HandleEvent.opened n :: u, v, w ++ [HandleEvent.closed n], by rw [huvw]; simp⟩
  · intro h hm
    by_cases hn : h = n
    · subst hn
      omega
    · have hm2 : HandleEvent.opened h ∈ x := by
        simp only [List.mem_cons, List.mem_append, HandleEvent.opened.injEq, List.mem_singleton,
          reduceCtorEq, or_false, List.not_mem_nil] at hm
        rcases hm with hm | hm
        · exact absurd hm hn
        · exact hm
      have := hx.2.2 h hm2
      omega

theorem released_refl (hs : Handles) : Released hs hs :=
  ⟨rfl, [], (List.append_nil _).symm, scopedIn_nil _ _ (Nat.le_refl _)⟩

theorem released_trans {h1 h2 h3 : Handles} (h12 : Released h1 h2) (h23 : Released h2 h3) :
    Released h1 h3 := by
  obtain ⟨l12, x, t12, s12⟩ := h12
  obtain ⟨l23, y, t23, s23⟩ := h23
  exact ⟨l23.trans l12, x ++ y, by rw [t23, t12, List.append_assoc], scopedIn_append s12 s23⟩

/-- Acquiring a handle, running a scoped stretch, then closing the handle is a
scoped stretch. -/
theorem released_wrap (hs hs2 : Handles) (h : Released hs.acquire.2 hs2) :
    Released hs (CloseHandle hs.acquire.1 hs2) := by
  obtain ⟨hl, x, ht, hsc⟩ := h
  refine ⟨?_, HandleEvent.opened hs.next :: (x ++ [HandleEvent.closed hs.next]), ?_, ?_⟩
  · show hs2.live.erase hs.next = hs.live
    rw [hl]
    exact List.erase_cons_head _ _
  · show hs2.trace ++ [HandleEvent.closed hs.next] = _
    rw [ht]
    simp [Handles.acquire]
  · exact scopedIn_wrap hsc

/-! ## Facts about the fill loop -/

theorem countLoop_eq (rest : List PROCESSENTRY32) (count : Nat) :
    countLoop rest count = count + rest.length + 1 := by
  induction rest generalizing count with
  | nil => simp [countLoop]
  | cons e rest ih =>
    simp only [countLoop, ih, List.length_cons]
    omega

theorem fillBody_i (entry : PROCESSENTRY32) (proc : Option ProcessView) (st : FillState) :
    (fillBody entry proc st).i = st.i + 1 := by
  cases proc <;> rfl

theorem fillBody_stores (entry : PROCESSENTRY32) (proc : Option ProcessView) (st : FillState) :
    (fillBody entry proc st).stores = st.stores ++ [st.i] := by
  cases proc <;> rfl

theorem fillBody_processes (entry : PROCESSENTRY32) (proc : Option ProcessView) (st : FillState)
    (hz : st.processes.getD st.i zeroInfo = zeroInfo) :
    (fillBody entry proc st).processes = st.processes.set st.i (slotOf entry proc) := by
  cases proc with
  | none =>
    simp only [fillBody, slotOf, hz]
    rfl
  | some view =>
    simp only [fillBody, slotOf, hz]
    rfl

theorem fillBody_handles (entry : PROCESSENTRY32) (proc : Option ProcessView) (st : FillState) :
    Released st.handles (fillBody entry proc st).handles := by
  cases proc with
  | none => exact released_refl _
  | some view => exact released_wrap st.handles st.handles.acquire.2 (released_refl _)

theorem fillLoop_handles (count : Nat) (rest : List (PROCESSENTRY32 × Option ProcessView)) :
    ∀ (entry : PROCESSENTRY32) (proc : Option ProcessView) (st : FillState),
      Released st.handles (fillLoop count entry proc rest st).handles := by
  induction rest with
  | nil =>
    intro entry proc st
    exact fillBody_handles entry proc st
  | cons x rest ih =>
    intro entry proc st
    obtain ⟨e2, p2⟩ := x
    simp only [fillLoop]
    split
    · exact released_trans (fillBody_handles entry proc st) (ih e2 p2 _)
    · exact fillBody_handles entry proc st

/-- The fill loop entered at index `st.i` with `k + 1` zero slots left: it fills
one slot per entry, in order, until the entries or the slots run out. -/
theorem fillLoop_spec (count : Nat) (rest : List (PROCESSENTRY32 × Option ProcessView)) :
    ∀ (entry : PROCESSENTRY32) (proc : Option ProcessView) (st : FillState)
      (done : List ProcGuard_ProcessInfo) (k : Nat),
      st.i + (k + 1) = count → done.length = st.i →
      st.processes = done ++ List.replicate (k + 1) zeroInfo →
      (fillLoop count entry proc rest st).processes
          = done ++ (((entry, proc) :: rest).take (k + 1)).map (fun x => slotOf x.1 x.2)
            ++ List.replicate (k + 1 - min (rest.length + 1) (k + 1)) zeroInfo
        ∧ (fillLoop count entry proc rest st).i = st.i + min (rest.length + 1) (k + 1)
        ∧ (fillLoop count entry proc rest st).stores
          = st.stores ++ List.range' st.i (min (rest.length + 1) (k + 1)) := by
  induction rest with
  | nil =>
    intro entry proc st done k hk hlen hproc
    have hz : st.processes.getD st.i zeroInfo = zeroInfo := by
      rw [hproc, List.getD_eq_getElem?_getD, List.getElem?_append_right (by omega), hlen,
        Nat.sub_self, List.replicate_succ, List.getElem?_cons_zero, Option.getD_some]
    have hmin : min ([] : List (PROCESSENTRY32 × Option ProcessView)).length.succ (k + 1) = 1 := by
      simp
    simp only [fillLoop, fillBody_i, fillBody_stores, fillBody_processes _ _ _ hz]
    refine ⟨?_, by simp, by simp⟩
    rw [hproc, ← hlen, List.set_append_right _ _ (Nat.le_refl _), Nat.sub_self]
    simp [List.replicate_succ]
  | cons x rest ih =>
    intro entry proc st done k hk hlen hproc
    obtain ⟨e2, p2⟩ := x
    have hz : st.processes.getD st.i zeroInfo = zeroInfo := by
      rw [hproc, List.getD_eq_getElem?_getD, List.getElem?_append_right (by omega), hlen,
        Nat.sub_self, List.replicate_succ, List.getElem?_cons_zero, Option.getD_some]
    have hset : (fillBody entry proc st).processes
        = (done ++ [slotOf entry proc]) ++ List.replicate k zeroInfo := by
      rw [fillBody_processes _ _ _ hz, hproc, ← hlen,
        List.set_append_right _ _ (Nat.le_refl _), Nat.sub_self]
      simp [List.replicate_succ]
    simp only [fillLoop, fillBody_i]
    cases k with
    | zero =>
      have hnot : ¬ st.i + 1 < count := by omega
      simp only [hnot, if_false, fillBody_i, fillBody_stores, hset]
      refine ⟨by simp, by simp, by simp⟩
    | succ k =>
      have hlt : st.i + 1 < count := by omega
      simp only [hlt, if_true]
      have h := ih e2 p2 (fillBody entry proc st) (done ++ [slotOf entry proc]) k
        (by rw [fillBody_i]; omega) (by rw [fillBody_i]; simp [hlen]) hset
      obtain ⟨h1, h2, h3⟩ := h
      rw [h1, h2, h3, fillBody_i, fillBody_stores]
      have hmin : min ((e2, p2) :: rest).length.succ (k + 1 + 1)
          = min (rest.length + 1) (k + 1) + 1 := by
        simp only [List.length_cons, Nat.succ_eq_add_one]
        omega
      refine ⟨?_, ?_, ?_⟩
      · simp only [List.length_cons, List.take_succ_cons, List.map_cons, List.append_assoc,
          List.singleton_append]
        congr 3
        omega
      · simp only [List.length_cons]
        omega
      · simp only [List.length_cons, List.append_assoc, List.singleton_append]
        congr 1
        rw [show min (rest.length + 1 + 1) (k + 1 + 1) = min (rest.length + 1) (k + 1) + 1 by omega,
          List.range'_succ]

/-! ## Facts about `CaptureProcessSnapshot` -/

/-- The snapshot of a call that reaches the fill loop: one filled slot per entry
read, then the untouched zero slots. -/
theorem capture_full (env : SnapshotEnv) (hs : Handles) (h1 : env.snapshotOk = true)
    (h2 : env.callocOk = true) (hN : env.countWalk ≠ []) (hM : env.fillWalk ≠ []) :
    (CaptureProcessSnapshot env hs).list.processes
        = some ((env.fillWalk.take env.countWalk.length).map (fun x => slotOf x.1 x.2)
            ++ List.replicate
              (env.countWalk.length - min env.fillWalk.length env.countWalk.length) zeroInfo)
      ∧ (CaptureProcessSnapshot env hs).list.count
        = min env.fillWalk.length env.countWalk.length
      ∧ (CaptureProcessSnapshot env hs).stores
        = List.range (min env.fillWalk.length env.countWalk.length) := by
  obtain ⟨ok, cw, cok, fw⟩ := env
  simp only at h1 h2 hN hM
  subst h1 h2
  cases cw with
  | nil => exact absurd rfl hN
  | cons e1 rest1 =>
    cases fw with
    | nil => exact absurd rfl hM
    | cons x rest2 =>
      obtain ⟨entry, proc⟩ := x
      have hc : countLoop rest1 0 = rest1.length + 1 := by
        rw [countLoop_eq]
        omega
      have h := fillLoop_spec (rest1.length + 1) rest2 entry proc
        ⟨List.replicate (rest1.length + 1) zeroInfo, 0, [], hs.acquire.2⟩ [] rest1.length
        (by simp) rfl (by simp)
      obtain ⟨p1, p2, p3⟩ := h
      simp only [CaptureProcessSnapshot, hc, Bool.true_eq_false, if_false, List.length_cons]
      rw [p1, p2, p3]
      refine ⟨?_, ?_, ?_⟩
      · simp only [List.nil_append, List.length_cons]
      · simp only [Nat.zero_add]
      · simp only [List.nil_append, Nat.zero_add]
        rw [List.range_eq_range']

/-- Outside the case of `capture_full` the returned count is zero. -/
theorem capture_count_zero (env : SnapshotEnv) (hs : Handles)
    (h : env.snapshotOk = false ∨ env.callocOk = false ∨ env.countWalk = [] ∨ env.fillWalk = []) :
    (CaptureProcessSnapshot env hs).list.count = 0 := by
  obtain ⟨ok, cw, cok, fw⟩ := env
  simp only at h
  unfold CaptureProcessSnapshot
  cases ok
  · rfl
  · cases cw with
    | nil => rfl
    | cons e1 rest1 =>
      cases cok
      · rfl
      · cases fw with
        | nil => rfl
        | cons x rest2 => simp at h

/-- Every one of the first `count` records of a snapshot is the slot the fill
body computes for the entry read at that position. -/
theorem capture_slot (env : SnapshotEnv) (hs : Handles) (k : Nat)
    (hk : k < (CaptureProcessSnapshot env hs).list.count) :
    ∃ arr x, (CaptureProcessSnapshot env hs).list.processes = some arr
      ∧ arr.length = env.countWalk.length
      ∧ env.fillWalk[k]? = some x ∧ arr[k]? = some (slotOf x.1 x.2) := by
  by_cases h1 : env.snapshotOk = true
  · by_cases h2 : env.callocOk = true
    · by_cases hN : env.countWalk = []
      · rw [capture_count_zero env hs (Or.inr (Or.inr (Or.inl hN)))] at hk
        exact absurd hk (Nat.not_lt_zero _)
      · by_cases hM : env.fillWalk = []
        · rw [capture_count_zero env hs (Or.inr (Or.inr (Or.inr hM)))] at hk
          exact absurd hk (Nat.not_lt_zero _)
        · obtain ⟨p1, p2, _⟩ := capture_full env hs h1 h2 hN hM
          rw [p2] at hk
          have hkM : k < env.fillWalk.length := by omega
          have hkN : k < env.countWalk.length := by omega
          refine ⟨_, env.fillWalk[k], p1, ?_, ?_, ?_⟩
          · simp only [List.length_append, List.length_map, List.length_take,
              List.length_replicate]
            omega
          · exact List.getElem?_eq_getElem hkM
          · rw [List.getElem?_append_left (by
              simp only [List.length_map, List.length_take]
              omega), List.getElem?_map, List.getElem?_take_of_lt hkN,
              List.getElem?_eq_getElem hkM]
            rfl
    · rw [capture_count_zero env hs (Or.inr (Or.inl (by simpa using h2)))] at hk
      exact absurd hk (Nat.not_lt_zero _)
  · rw [capture_count_zero env hs (Or.inl (by simpa using h1))] at hk
    exact absurd hk (Nat.not_lt_zero _)

theorem capture_handles (env : SnapshotEnv) (hs : Handles) :
    Released hs (CaptureProcessSnapshot env hs).handles := by
  obtain ⟨ok, cw, cok, fw⟩ := env
  unfold CaptureProcessSnapshot
  cases ok
  · exact released_refl hs
  · cases cw with
    | nil => exact released_wrap hs _ (released_refl _)
    | cons e1 rest1 =>
      cases cok
      · exact released_wrap hs _ (released_refl _)
      · cases fw with
        | nil => exact released_wrap hs _ (released_refl _)
        | cons x rest2 =>
          obtain ⟨entry, proc⟩ := x
          exact released_wrap hs _ (fillLoop_handles _ rest2 entry proc _)

theorem byPID_handles (proc : Option ProcessView) (pid : Nat) (hs : Handles) :
    Released hs (GetProcessInfoByPID proc pid hs).2 := by
  cases proc with
  | none => exact released_refl hs
  | some view => exact released_wrap hs _ (released_refl _)

/-! ## Facts about one filled slot -/

theorem slotOf_pid (entry : PROCESSENTRY32) (proc : Option ProcessView) :
    (slotOf entry proc).pid = entry.th32ProcessID := by
  cases proc with
  | none => rfl
  | some view =>
    obtain ⟨times, path⟩ := view
    cases times <;> rfl

theorem slotOf_parent_pid (entry : PROCESSENTRY32) (proc : Option ProcessView) :
    (slotOf entry proc).parent_pid = entry.th32ParentProcessID := by
  cases proc with
  | none => rfl
  | some view =>
    obtain ⟨times, path⟩ := view
    cases times <;> rfl

theorem slotOf_name (entry : PROCESSENTRY32) (proc : Option ProcessView) :
    (slotOf entry proc).name
      = strncpy (memset (List.replicate 260 0) 0 260) entry.szExeFile (260 - 1) := by
  cases proc with
  | none => rfl
  | some view =>
    obtain ⟨times, path⟩ := view
    cases times <;> rfl

theorem slotOf_none (entry : PROCESSENTRY32) :
    (slotOf entry none).start_time_nano = 0
      ∧ (slotOf entry none).exe_path = List.replicate 260 0 :=
  ⟨rfl, rfl⟩

theorem slotOf_start_time (entry : PROCESSENTRY32) (view : ProcessView) :
    (slotOf entry (some view)).start_time_nano
      = match view.times with
        | some ftCreate => startTimeNano ftCreate
        | none => 0 := by
  obtain ⟨times, path⟩ := view
  cases times <;> rfl

theorem byPID_start_time (view : ProcessView) (pid : Nat) (hs : Handles) :
    (GetProcessInfoByPID (some view) pid hs).1.start_time_nano
      = match view.times with
        | some ftCreate => startTimeNano ftCreate
        | none => 0 := by
  obtain ⟨times, path⟩ := view
  cases times <;>
    simp only [GetProcessInfoByPID, GetProcessTimes, Handles.acquire] <;>
    split <;> (try split) <;> rfl

/-- The 64-bit expression of the source equals the arithmetic it stands for. -/
theorem startTimeNano_eq (low high : Nat) (hl : low < 2 ^ 32) (hh : high < 2 ^ 32) :
    startTimeNano ⟨low, high⟩ = ((high * 2 ^ 32 + low) * 100) % 2 ^ 64 := by
  unfold startTimeNano
  have h1 : high % 2 ^ 64 = high := Nat.mod_eq_of_lt (by omega)
  have h2 : (high <<< 32) % 2 ^ 64 = high <<< 32 := by
    rw [Nat.shiftLeft_eq]
    exact Nat.mod_eq_of_lt (by omega)
  have h3 : high <<< 32 ||| low = high * 2 ^ 32 + low := by
    rw [Nat.shiftLeft_eq, Nat.mul_comm high, ← Nat.mul_add_lt_is_or hl]
  simp only [h1, h2, h3]

/-! ## Helpers for positions in a snapshot -/

theorem getElem?_middle {α : Type} (front back : List α) (a b : α) (j : Nat)
    (hj : j ≠ front.length) : (front ++ a :: back)[j]? = (front ++ b :: back)[j]? := by
  rcases Nat.lt_or_gt_of_ne hj with h | h
  · rw [List.getElem?_append_left h, List.getElem?_append_left h]
  · rw [List.getElem?_append_right (Nat.le_of_lt h), List.getElem?_append_right (Nat.le_of_lt h)]
    obtain ⟨m, hm⟩ : ∃ m, j - front.length = m + 1 := ⟨j - front.length - 1, by omega⟩
    rw [hm, List.getElem?_cons_succ, List.getElem?_cons_succ]

theorem snapshot_getElem? {α β : Type} (walk : List α) (f : α → β) (z : β) (n j : Nat) :
    ((walk.take n).map f ++ List.replicate (n - min walk.length n) z)[j]?
      = if j < min walk.length n then (walk[j]?).map f
        else if j < n then some z else none := by
  have hlen : ((walk.take n).map f).length = min walk.length n := by
    simp only [List.length_map, List.length_take]
    omega
  by_cases h : j < min walk.length n
  · rw [if_pos h, List.getElem?_append_left (by omega), List.getElem?_map,
      List.getElem?_take_of_lt (by omega)]
  · rw [if_neg h, List.getElem?_append_right (by omega), List.getElem?_replicate, hlen]
    by_cases h2 : j < n
    · rw [if_pos h2, if_pos (by omega)]
    · rw [if_neg h2, if_neg (by omega)]

/-! ## The claims -/

/-- C1. In a `CaptureProcessSnapshot` call that reaches the fill pass (the
snapshot handle opens and `calloc` succeeds), with a count pass that sees
`N ≥ 1` entries and a fill pass that can read `M ≥ 1` entries: the fill loop
writes the slots `0, 1, ..., min M N - 1` of the `N`-slot array, each once and no
other, and the returned count is `min M N`, hence at most `N`. -/
theorem capture_fill_bound (env : SnapshotEnv) (hs : Handles) (N M : Nat)
    (hsnap : env.snapshotOk = true) (halloc : env.callocOk = true)
    (hN : env.countWalk.length = N) (hM : env.fillWalk.length = M)
    (hN1 : 1 ≤ N) (hM1 : 1 ≤ M) :
    (CaptureProcessSnapshot env hs).stores = List.range (min M N)
      ∧ (CaptureProcessSnapshot env hs).stores.length = min M N
      ∧ (∀ slot ∈ (CaptureProcessSnapshot env hs).stores, slot < min M N ∧ slot < N)
      ∧ (∃ arr, (CaptureProcessSnapshot env hs).list.processes = some arr ∧ arr.length = N)
      ∧ (CaptureProcessSnapshot env hs).list.count = min M N
      ∧ (CaptureProcessSnapshot env hs).list.count ≤ N := by
  have hNne : env.countWalk ≠ [] := by
    intro h
    rw [h] at hN
    simp at hN
    omega
  have hMne : env.fillWalk ≠ [] := by
    intro h
    rw [h] at hM
    simp at hM
    omega
  obtain ⟨p1, p2, p3⟩ := capture_full env hs hsnap halloc hNne hMne
  rw [hN, hM] at p1 p2 p3
  refine ⟨p3, by rw [p3, List.length_range], ?_, ⟨_, p1, ?_⟩, p2, by rw [p2]; omega⟩
  · intro slot hslot
    rw [p3, List.mem_range] at hslot
    omega
  · simp only [List.length_append, List.length_map, List.length_take, List.length_replicate]
    omega

/-- Witness of C1: two entries counted, three readable; slots 0 and 1 are
written and the count is 2. -/
theorem capture_fill_bound_witness :
    (grownEnv.snapshotOk = true ∧ grownEnv.callocOk = true ∧ grownEnv.countWalk.length = 2
        ∧ grownEnv.fillWalk.length = 3)
      ∧ (CaptureProcessSnapshot grownEnv noHandles).stores = List.range (min 3 2)
      ∧ (CaptureProcessSnapshot grownEnv noHandles).list.count = min 3 2 :=
  ⟨⟨rfl, rfl, rfl, rfl⟩,
    (capture_fill_bound grownEnv noHandles 2 3 rfl rfl rfl rfl (by decide) (by decide)).1,
    (capture_fill_bound grownEnv noHandles 2 3 rfl rfl rfl rfl (by decide) (by decide)).2.2.2.2.1⟩

/-- C2, counterexample. A table holding the idle process (process id 0) gives a
snapshot of one record, and that record has `pid = 0`. -/
theorem capture_pid_zero_counterexample :
    ∃ arr r, (CaptureProcessSnapshot idleEnv noHandles).list.processes = some arr
      ∧ 0 < (CaptureProcessSnapshot idleEnv noHandles).list.count
      ∧ arr[0]? = some r ∧ r.pid = 0 := by
  have hc : (CaptureProcessSnapshot idleEnv noHandles).list.count = 1 :=
    (capture_full idleEnv noHandles rfl rfl (by simp [idleEnv]) (by simp [idleEnv])).2.1
  have hk : 0 < (CaptureProcessSnapshot idleEnv noHandles).list.count := by
    rw [hc]
    exact Nat.one_pos
  obtain ⟨arr, x, h1, _, h3, h4⟩ := capture_slot idleEnv noHandles 0 hk
  have hx : x = (idleEntry, none) := by
    have : idleEnv.fillWalk[0]? = some (idleEntry, none) := rfl
    rw [this] at h3
    exact (Option.some.inj h3).symm
  refine ⟨arr, _, h1, hk, h4, ?_⟩
  rw [slotOf_pid, hx]
  rfl

/-- C2, amended. Every one of the first `count` records of a snapshot has the
`pid` of the enumeration entry read at its position in the fill pass; so it has
`pid ≠ 0` exactly when that entry's process id is not 0. -/
theorem capture_pid_from_entry (env : SnapshotEnv) (hs : Handles) (k : Nat)
    (hk : k < (CaptureProcessSnapshot env hs).list.count) :
    ∃ arr r x, (CaptureProcessSnapshot env hs).list.processes = some arr
      ∧ arr[k]? = some r ∧ env.fillWalk[k]? = some x
      ∧ r.pid = x.1.th32ProcessID
      ∧ (r.pid ≠ 0 ↔ x.1.th32ProcessID ≠ 0) := by
  obtain ⟨arr, x, h1, _, h3, h4⟩ := capture_slot env hs k hk
  exact ⟨arr, _, x, h1, h4, h3, slotOf_pid _ _, by rw [slotOf_pid]⟩

/-- Witness of the amended C2: the second record of a two-record snapshot. -/
theorem capture_pid_from_entry_witness :
    1 < (CaptureProcessSnapshot grownEnv noHandles).list.count
      ∧ ∃ arr r x, (CaptureProcessSnapshot grownEnv noHandles).list.processes = some arr
        ∧ arr[1]? = some r ∧ grownEnv.fillWalk[1]? = some x
        ∧ r.pid = x.1.th32ProcessID
        ∧ (r.pid ≠ 0 ↔ x.1.th32ProcessID ≠ 0) :=
  ⟨by decide, capture_pid_from_entry grownEnv noHandles 1 (by decide)⟩

/-- C3. In a `CaptureProcessSnapshot` call that reaches the fill pass, let an
entry read in the fill pass (position `front.length`, below the counted `N`)
have a process handle that cannot be opened. Its record is present in the
snapshot with `pid`, `parent_pid` and `name` from the entry, `start_time_nano = 0`
and an empty `exe_path`. Whatever the `OpenProcess` outcome for that entry had
been instead, the returned count and every record at another position are the
same. -/
theorem capture_open_failure_record (env : SnapshotEnv) (hs : Handles)
    (front back : List (PROCESSENTRY32 × Option ProcessView)) (entry : PROCESSENTRY32)
    (hsnap : env.snapshotOk = true) (halloc : env.callocOk = true)
    (hwalk : env.fillWalk = front ++ (entry, none) :: back)
    (hread : front.length < env.countWalk.length) :
    (∃ arr r, (CaptureProcessSnapshot env hs).list.processes = some arr
        ∧ front.length < (CaptureProcessSnapshot env hs).list.count
        ∧ arr[front.length]? = some r
        ∧ r.pid = entry.th32ProcessID
        ∧ r.parent_pid = entry.th32ParentProcessID
        ∧ cstr r.name = (cstr entry.szExeFile).take 259
        ∧ r.start_time_nano = 0
        ∧ cstr r.exe_path = [])
      ∧ ∀ (other : Option ProcessView) (hs2 : Handles),
        (CaptureProcessSnapshot { env with fillWalk := front ++ (entry, other) :: back } hs2).list.count
            = (CaptureProcessSnapshot env hs).list.count
          ∧ ∃ arr arr2, (CaptureProcessSnapshot env hs).list.processes = some arr
            ∧ (CaptureProcessSnapshot
                { env with fillWalk := front ++ (entry, other) :: back } hs2).list.processes
              = some arr2
            ∧ ∀ j, j ≠ front.length → arr2[j]? = arr[j]? := by
  have hNne : env.countWalk ≠ [] := by
    intro h
    rw [h] at hread
    exact absurd hread (Nat.not_lt_zero _)
  have hMne : env.fillWalk ≠ [] := by
    rw [hwalk]
    simp
  have hMlen : env.fillWalk.length = front.length + back.length + 1 := by
    rw [hwalk]
    simp only [List.length_append, List.length_cons]
    omega
  obtain ⟨p1, p2, _⟩ := capture_full env hs hsnap halloc hNne hMne
  have hk : front.length < (CaptureProcessSnapshot env hs).list.count := by
    rw [p2]
    omega
  refine ⟨?_, ?_⟩
  · obtain ⟨arr, x, h1, _, h3, h4⟩ := capture_slot env hs front.length hk
    have hx : x = (entry, none) := by
      rw [hwalk, List.getElem?_append_right (Nat.le_refl _), Nat.sub_self,
        List.getElem?_cons_zero] at h3
      exact (Option.some.inj h3).symm
    subst hx
    refine ⟨arr, _, h1, hk, h4, slotOf_pid _ _, slotOf_parent_pid _ _, ?_,
      (slotOf_none entry).1, ?_⟩
    · rw [slotOf_name, name_copy_eq _ _ (List.length_replicate _ _), cstr_copied]
    · rw [(slotOf_none entry).2, cstr_replicate_zero]
  · intro other hs2
    have hMne2 : front ++ (entry, other) :: back ≠ [] := by simp
    obtain ⟨q1, q2, _⟩ := capture_full { env with fillWalk := front ++ (entry, other) :: back }
      hs2 hsnap halloc hNne hMne2
    have hlen2 : (front ++ (entry, other) :: back).length = env.fillWalk.length := by
      rw [hwalk]
      simp only [List.length_append, List.length_cons]
    simp only [hlen2] at q1 q2
    refine ⟨by rw [q2, p2], _, _, p1, q1, ?_⟩
    intro j hj
    have e1 := snapshot_getElem? env.fillWalk (fun x => slotOf x.1 x.2) zeroInfo
      env.countWalk.length j
    have e2 := snapshot_getElem? (front ++ (entry, other) :: back) (fun x => slotOf x.1 x.2)
      zeroInfo env.countWalk.length j
    rw [hlen2] at e2
    rw [e1, e2, hwalk, getElem?_middle front back (entry, other) (entry, none) j hj]

/-- Witness of C3: the first entry of a three-entry walk cannot be opened. -/
theorem capture_open_failure_record_witness :
    (grownEnv.snapshotOk = true ∧ grownEnv.callocOk = true
        ∧ grownEnv.fillWalk
          = [] ++ (sampleEntry, none) :: [(longEntry, some sampleView), (sampleEntry, none)]
        ∧ ([] : List (PROCESSENTRY32 × Option ProcessView)).length < grownEnv.countWalk.length)
      ∧ ∃ arr r, (CaptureProcessSnapshot grownEnv noHandles).list.processes = some arr
        ∧ ([] : List (PROCESSENTRY32 × Option ProcessView)).length
          < (CaptureProcessSnapshot grownEnv noHandles).list.count
        ∧ arr[([] : List (PROCESSENTRY32 × Option ProcessView)).length]? = some r
        ∧ r.pid = sampleEntry.th32ProcessID
        ∧ r.parent_pid = sampleEntry.th32ParentProcessID
        ∧ cstr r.name = (cstr sampleEntry.szExeFile).take 259
        ∧ r.start_time_nano = 0
        ∧ cstr r.exe_path = [] :=
  ⟨⟨rfl, rfl, rfl, by decide⟩,
    (capture_open_failure_record grownEnv noHandles []
      [(longEntry, some sampleView), (sampleEntry, none)] sampleEntry rfl rfl rfl
      (by decide)).1⟩

/-- C4. When the process handle cannot be opened, `GetProcessInfoByPID(pid)`
returns a record whose `pid` is the argument and whose other fields are zero:
`parent_pid = 0`, `start_time_nano = 0`, `name` and `exe_path` all-zero and so
empty strings. No handle is opened. -/
theorem byPID_open_failure (pid : Nat) (hs : Handles) :
    (GetProcessInfoByPID none pid hs).1.pid = pid
      ∧ (GetProcessInfoByPID none pid hs).1.parent_pid = 0
      ∧ (GetProcessInfoByPID none pid hs).1.start_time_nano = 0
      ∧ (GetProcessInfoByPID none pid hs).1.name = List.replicate 260 0
      ∧ (GetProcessInfoByPID none pid hs).1.exe_path = List.replicate 260 0
      ∧ cstr (GetProcessInfoByPID none pid hs).1.name = []
      ∧ cstr (GetProcessInfoByPID none pid hs).1.exe_path = []
      ∧ (GetProcessInfoByPID none pid hs).2 = hs :=
  ⟨rfl, rfl, rfl, rfl, rfl, cstr_replicate_zero 260, cstr_replicate_zero 260, rfl⟩

/-- C5. When the handle opens and the image-path query succeeds with a path `p`
(at most 259 units, none of them 0), `GetProcessInfoByPID` stores `p` in
`exe_path` and sets `name` to what follows the last backslash (unit 92) of `p`
when `p` holds one, and to the whole of `p` when it holds none. For
`C:\Apps\tool.exe` the name is `tool.exe`. -/
theorem byPID_name_is_basename :
    (∀ (view : ProcessView) (pid : Nat) (hs : Handles) (p : List Nat),
        view.imagePath = some p → p.length ≤ 259 → (0 : Nat) ∉ p →
        cstr (GetProcessInfoByPID (some view) pid hs).1.exe_path = p
          ∧ (∀ front back, p = front ++ 92 :: back → (92 : Nat) ∉ back →
              cstr (GetProcessInfoByPID (some view) pid hs).1.name = back)
          ∧ ((92 : Nat) ∉ p → cstr (GetProcessInfoByPID (some view) pid hs).1.name = p))
      ∧ ∀ (times : Option FILETIME) (pid : Nat) (hs : Handles),
        cstr (GetProcessInfoByPID (some ⟨times, some toolPath⟩) pid hs).1.name = toolName := by
  refine ⟨?_, ?_⟩
  · intro view pid hs p hp hlen hz
    refine ⟨?_, ?_, ?_⟩
    · rw [(byPID_success view pid hs p hp hlen).1]
      exact cstr_append_zero p _ hz
    · intro front back hsplit hback
      subst hsplit
      exact byPID_name_after_last view pid hs front back hp hlen hz hback
    · intro hno
      exact byPID_name_whole view pid hs p hp hlen hz hno
  · intro times pid hs
    exact byPID_name_after_last ⟨times, some toolPath⟩ pid hs [67, 58, 92, 65, 112, 112, 115]
      toolName rfl (by decide) (by decide) (by decide)

/-- Witness of C5: the path `a.exe`, without a backslash, is the name. -/
theorem byPID_name_is_basename_witness :
    ((⟨none, some [97, 46, 101, 120, 101]⟩ : ProcessView).imagePath
          = some [97, 46, 101, 120, 101]
        ∧ [97, 46, 101, 120, 101].length ≤ 259 ∧ (0 : Nat) ∉ [97, 46, 101, 120, 101]
        ∧ (92 : Nat) ∉ [97, 46, 101, 120, 101])
      ∧ cstr (GetProcessInfoByPID (some ⟨none, some [97, 46, 101, 120, 101]⟩) 4132
          noHandles).1.name = [97, 46, 101, 120, 101] :=
  ⟨⟨rfl, by decide, by decide, by decide⟩,
    (byPID_name_is_basename.1 ⟨none, some [97, 46, 101, 120, 101]⟩ 4132 noHandles
      [97, 46, 101, 120, 101] rfl (by decide) (by decide)).2.2 (by decide)⟩

/-- C6, counterexample. For the path `C:\` the handle opens, the path query
succeeds, `exe_path` is the non-empty `C:\`, and the derived `name` is empty. -/
theorem byPID_empty_name_counterexample :
    cstr (GetProcessInfoByPID (some ⟨none, some rootPath⟩) 4132 noHandles).1.exe_path = rootPath
      ∧ rootPath ≠ []
      ∧ cstr (GetProcessInfoByPID (some ⟨none, some rootPath⟩) 4132 noHandles).1.name = [] := by
  refine ⟨?_, by decide, ?_⟩
  · rw [(byPID_success ⟨none, some rootPath⟩ 4132 noHandles rootPath rfl (by decide)).1]
    exact cstr_append_zero rootPath _ (by decide)
  · exact byPID_name_after_last ⟨none, some rootPath⟩ 4132 noHandles [67, 58] [] rfl
      (by decide) (by decide) (by decide)

/-- C6, amended. When the handle opens and the image-path query succeeds with a
non-empty path `p` (at most 259 units, none of them 0), the `name` of the
returned record is non-empty exactly when `p` does not end in a backslash; so a
non-empty `exe_path` that does not end in a backslash never gives an empty name. -/
theorem byPID_name_nonempty (view : ProcessView) (pid : Nat) (hs : Handles) (p : List Nat)
    (hp : view.imagePath = some p) (hlen : p.length ≤ 259) (hz : (0 : Nat) ∉ p)
    (hne : p ≠ []) :
    cstr (GetProcessInfoByPID (some view) pid hs).1.exe_path = p
      ∧ (cstr (GetProcessInfoByPID (some view) pid hs).1.name ≠ [] ↔ p.getLast? ≠ some 92) := by
  refine ⟨?_, ?_⟩
  · rw [(byPID_success view pid hs p hp hlen).1]
    exact cstr_append_zero p _ hz
  · by_cases h92 : (92 : Nat) ∈ p
    · obtain ⟨front, back, hsplit, hback⟩ := split_at_last 92 p h92
      subst hsplit
      rw [byPID_name_after_last view pid hs front back hp hlen hz hback]
      cases back with
      | nil => simp
      | cons b bs =>
        have hlast : (front ++ 92 :: b :: bs).getLast? = (b :: bs).getLast? := by
          rw [show front ++ 92 :: b :: bs = (front ++ [92]) ++ (b :: bs) by simp]
          exact List.getLast?_append_of_ne_nil _ (List.cons_ne_nil b bs)
        rw [hlast]
        constructor
        · intro _ hl
          exact hback (List.mem_of_getLast?_eq_some hl)
        · intro _
          exact List.cons_ne_nil b bs
    · rw [byPID_name_whole view pid hs p hp hlen hz h92]
      constructor
      · intro _ hl
        exact h92 (List.mem_of_getLast?_eq_some hl)
      · intro _
        exact hne

/-- Witness of the amended C6: `C:\Apps\tool.exe` does not end in a backslash
and gives a non-empty name. -/
theorem byPID_name_nonempty_witness :
    (sampleView.imagePath = some toolPath ∧ toolPath.length ≤ 259 ∧ (0 : Nat) ∉ toolPath
        ∧ toolPath ≠ [] ∧ toolPath.getLast? ≠ some 92)
      ∧ cstr (GetProcessInfoByPID (some sampleView) 4132 noHandles).1.name ≠ [] :=
  ⟨⟨rfl, by decide, by decide, by decide, by decide⟩,
    (byPID_name_nonempty sampleView 4132 noHandles toolPath rfl (by decide) (by decide)
      (by decide)).2.mpr (by decide)⟩

/-- C7. For every record among the first `count` of a snapshot, `s` being the
string at the entry's `szExeFile` (of any length, terminated or not within 260
units): the 260-unit `name` field holds the first `min (length s) 259` units of
`s` followed by zeros only. The field keeps its 260 units (the copy stores 259
units, nothing outside the field), holds a zero at index 259, and reads back as
`s` cut to 259 units. -/
theorem capture_name_copy (env : SnapshotEnv) (hs : Handles) (k : Nat)
    (hk : k < (CaptureProcessSnapshot env hs).list.count) :
    ∃ arr r x, (CaptureProcessSnapshot env hs).list.processes = some arr
      ∧ arr[k]? = some r ∧ env.fillWalk[k]? = some x
      ∧ r.name = (cstr x.1.szExeFile).take (min (cstr x.1.szExeFile).length 259)
          ++ List.replicate (260 - min (cstr x.1.szExeFile).length 259) 0
      ∧ r.name.length = 260
      ∧ (strncpyBytes x.1.szExeFile (260 - 1)).length = 259
      ∧ r.name[259]? = some 0
      ∧ cstr r.name = (cstr x.1.szExeFile).take 259 := by
  obtain ⟨arr, x, h1, _, h3, h4⟩ := capture_slot env hs k hk
  have hname := slotOf_name x.1 x.2
  rw [name_copy_eq _ _ (List.length_replicate _ _)] at hname
  have hlen : (slotOf x.1 x.2).name.length = 260 := by
    rw [hname]
    simp only [List.length_append, List.length_take, List.length_replicate]
    omega
  refine ⟨arr, _, x, h1, h4, h3, hname, hlen, strncpyBytes_length _ _, ?_, ?_⟩
  · rw [hname, List.getElem?_append_right (by
      simp only [List.length_take]
      omega), List.getElem?_replicate, if_pos (by
      simp only [List.length_take]
      omega)]
  · rw [hname, cstr_copied]

/-- Witness of C7: the second entry read has a 300-unit name without
terminator; its record holds the first 259 units and a terminator. -/
theorem capture_name_copy_witness :
    (1 < (CaptureProcessSnapshot grownEnv noHandles).list.count
        ∧ grownEnv.fillWalk[1]? = some (longEntry, some sampleView)
        ∧ (cstr longEntry.szExeFile).length = 300)
      ∧ ∃ arr r x, (CaptureProcessSnapshot grownEnv noHandles).list.processes = some arr
        ∧ arr[1]? = some r ∧ grownEnv.fillWalk[1]? = some x
        ∧ r.name = (cstr x.1.szExeFile).take (min (cstr x.1.szExeFile).length 259)
            ++ List.replicate (260 - min (cstr x.1.szExeFile).length 259) 0
        ∧ r.name.length = 260
        ∧ (strncpyBytes x.1.szExeFile (260 - 1)).length = 259
        ∧ r.name[259]? = some 0
        ∧ cstr r.name = (cstr x.1.szExeFile).take 259 :=
  ⟨⟨by decide, rfl, by
      rw [cstr_of_no_zero _ (by
        intro h
        exact absurd (List.eq_of_mem_replicate h) (by decide))]
      exact List.length_replicate _ _⟩,
    capture_name_copy grownEnv noHandles 1 (by decide)⟩

/-- C8. For a non-null `info`, `GetActiveWindowInfo` returns `-1` exactly when
there is no foreground window or the owning process id it obtains is 0, and `0`
otherwise. After a `-1` the record has `pid = 0` and an empty title; after a `0`
the record's `pid` is the owning process id, which is not 0. -/
theorem getActiveWindowInfo_result (foreground : Option Window) (info : ActiveWindowInfo) :
    ∃ out, (GetActiveWindowInfo foreground (some info)).2 = some out
      ∧ ((GetActiveWindowInfo foreground (some info)).1 = -1
          ↔ (foreground = none ∨ ∃ w, foreground = some w ∧ w.owner.getD 0 = 0))
      ∧ ((GetActiveWindowInfo foreground (some info)).1 = -1
          ∨ (GetActiveWindowInfo foreground (some info)).1 = 0)
      ∧ ((GetActiveWindowInfo foreground (some info)).1 = -1 →
          out.pid = 0 ∧ cstr out.title = [])
      ∧ ((GetActiveWindowInfo foreground (some info)).1 = 0 →
          out.pid ≠ 0 ∧ ∃ w, foreground = some w ∧ w.owner = some out.pid) := by
  have htitle : cstr (info.title.set 0 0) = [] := by
    cases info.title with
    | nil => rfl
    | cons t ts => simp [cstr]
  cases foreground with
  | none =>
    exact ⟨_, rfl, by simp [GetActiveWindowInfo], Or.inl rfl, fun _ => ⟨rfl, htitle⟩,
      fun h => absurd h (by simp [GetActiveWindowInfo])⟩
  | some w =>
    obtain ⟨owner, text⟩ := w
    cases owner with
    | none =>
      exact ⟨_, rfl, by simp [GetActiveWindowInfo], Or.inl rfl, fun _ => ⟨rfl, htitle⟩,
        fun h => absurd h (by simp [GetActiveWindowInfo])⟩
    | some p =>
      by_cases hp : p = 0
      · subst hp
        exact ⟨_, rfl, by simp [GetActiveWindowInfo], Or.inl rfl, fun _ => ⟨rfl, htitle⟩,
          fun h => absurd h (by simp [GetActiveWindowInfo])⟩
      · refine ⟨{ pid := p, title := GetWindowTextW ⟨some p, text⟩ (info.title.set 0 0) 256 },
          by simp [GetActiveWindowInfo, hp], by simp [GetActiveWindowInfo, hp],
          Or.inr (by simp [GetActiveWindowInfo, hp]),
          fun h => absurd h (by simp [GetActiveWindowInfo, hp]), fun _ => ⟨hp, _, rfl, rfl⟩⟩

/-- C9. For a creation time given as 32-bit halves `high`, `low`:
`CaptureProcessSnapshot` (for an entry whose handle opens) and
`GetProcessInfoByPID` both set `start_time_nano` to
`((high * 2^32 + low) * 100) mod 2^64` when the times query succeeds; this is the
exact product when `high * 2^32 + low ≤ 184467440737095516`; and both leave
`start_time_nano` at 0 when the times query fails. -/
theorem start_time_conversion (low high : Nat) (hl : low < 2 ^ 32) (hh : high < 2 ^ 32) :
    (∀ (env : SnapshotEnv) (hs : Handles) (k : Nat) (entry : PROCESSENTRY32)
        (view : ProcessView),
        k < (CaptureProcessSnapshot env hs).list.count →
        env.fillWalk[k]? = some (entry, some view) →
        view.times = some ⟨low, high⟩ →
        ∃ arr r, (CaptureProcessSnapshot env hs).list.processes = some arr ∧ arr[k]? = some r
          ∧ r.start_time_nano = ((high * 2 ^ 32 + low) * 100) % 2 ^ 64)
      ∧ (∀ (view : ProcessView) (pid : Nat) (hs : Handles),
        view.times = some ⟨low, high⟩ →
        (GetProcessInfoByPID (some view) pid hs).1.start_time_nano
          = ((high * 2 ^ 32 + low) * 100) % 2 ^ 64)
      ∧ (high * 2 ^ 32 + low ≤ 184467440737095516 →
        ((high * 2 ^ 32 + low) * 100) % 2 ^ 64 = (high * 2 ^ 32 + low) * 100)
      ∧ (∀ (env : SnapshotEnv) (hs : Handles) (k : Nat) (entry : PROCESSENTRY32)
        (view : ProcessView),
        k < (CaptureProcessSnapshot env hs).list.count →
        env.fillWalk[k]? = some (entry, some view) →
        view.times = none →
        ∃ arr r, (CaptureProcessSnapshot env hs).list.processes = some arr ∧ arr[k]? = some r
          ∧ r.start_time_nano = 0)
      ∧ (∀ (view : ProcessView) (pid : Nat) (hs : Handles),
        view.times = none →
        (GetProcessInfoByPID (some view) pid hs).1.start_time_nano = 0) := by
  refine ⟨?_, ?_, ?_, ?_, ?_⟩
  · intro env hs k entry view hk hx ht
    obtain ⟨arr, x, h1, _, h3, h4⟩ := capture_slot env hs k hk
    rw [hx] at h3
    have hx2 := Option.some.inj h3
    subst hx2
    refine ⟨arr, _, h1, h4, ?_⟩
    rw [slotOf_start_time, ht]
    exact startTimeNano_eq low high hl hh
  · intro view pid hs ht
    rw [byPID_start_time, ht]
    exact startTimeNano_eq low high hl hh
  · intro hb
    apply Nat.mod_eq_of_lt
    omega
  · intro env hs k entry view hk hx ht
    obtain ⟨arr, x, h1, _, h3, h4⟩ := capture_slot env hs k hk
    rw [hx] at h3
    have hx2 := Option.some.inj h3
    subst hx2
    refine ⟨arr, _, h1, h4, ?_⟩
    rw [slotOf_start_time, ht]
  · intro view pid hs ht
    rw [byPID_start_time, ht]

/-- Witness of C9: creation time with halves `high = 1`, `low = 5`. -/
theorem start_time_conversion_witness :
    ((5 : Nat) < 2 ^ 32 ∧ (1 : Nat) < 2 ^ 32 ∧ sampleView.times = some ⟨5, 1⟩)
      ∧ (GetProcessInfoByPID (some sampleView) 4132 noHandles).1.start_time_nano
        = ((1 * 2 ^ 32 + 5) * 100) % 2 ^ 64
      ∧ ∃ arr r, (CaptureProcessSnapshot grownEnv noHandles).list.processes = some arr
        ∧ arr[1]? = some r ∧ r.start_time_nano = ((1 * 2 ^ 32 + 5) * 100) % 2 ^ 64 :=
  ⟨⟨by decide, by decide, rfl⟩,
    (start_time_conversion 5 1 (by decide) (by decide)).2.1 sampleView 4132 noHandles rfl,
    (start_time_conversion 5 1 (by decide) (by decide)).1 grownEnv noHandles 1 longEntry
      sampleView (by decide) rfl rfl⟩

/-- C10. With the open handles as explicit state: for every environment (every
exit path) a `CaptureProcessSnapshot` call and a `GetProcessInfoByPID` call leave
the open handles as they found them, and the handle events of the call form a
scoped run: every handle the call opens is opened once and closed once, after
its opening, and nothing else is closed. On a three-entry walk with one process
that opens, the snapshot handle and that process handle are each opened and
closed. -/
theorem handles_released :
    (∀ (env : SnapshotEnv) (hs : Handles),
        (CaptureProcessSnapshot env hs).handles.live = hs.live
          ∧ ∃ evs, (CaptureProcessSnapshot env hs).handles.trace = hs.trace ++ evs ∧ Scoped evs)
      ∧ (∀ (proc : Option ProcessView) (pid : Nat) (hs : Handles),
        (GetProcessInfoByPID proc pid hs).2.live = hs.live
          ∧ ∃ evs, (GetProcessInfoByPID proc pid hs).2.trace = hs.trace ++ evs ∧ Scoped evs)
      ∧ (CaptureProcessSnapshot grownEnv ⟨[7], 10, []⟩).handles
          = ⟨[7], 12, [HandleEvent.opened 10, HandleEvent.opened 11, HandleEvent.closed 11,
              HandleEvent.closed 10]⟩
      ∧ (GetProcessInfoByPID (some sampleView) 4132 ⟨[7], 10, []⟩).2
          = ⟨[7], 11, [HandleEvent.opened 10, HandleEvent.closed 10]⟩ := by
  refine ⟨?_, ?_, by decide, by decide⟩
  · intro env hs
    obtain ⟨hl, evs, ht, hsc⟩ := capture_handles env hs
    exact ⟨hl, evs, ht, hsc.2.1⟩
  · intro proc pid hs
    obtain ⟨hl, evs, ht, hsc⟩ := byPID_handles proc pid hs
    exact ⟨hl, evs, ht, hsc.2.1⟩

end ProcSensing
